import Mathlib

/-!
Verification development for the Muuned parameter-sweep backtesting engine.

The JavaScript sources are shallowly embedded here.  JavaScript numbers are
modelled by exact rationals (`ℚ`), JavaScript arrays by Lean lists, sparse
array entries (holes / `undefined`) by `Option`, and thrown exceptions by
`Except`.  Each definition mirrors one source function and keeps its name.
-/

namespace Muuned

/-- A price bar (`Bar`/candle): `{timestamp, open, high, low, close, volume}`.
Only `timestamp` and `close` are consumed by the simulator; the other fields
are carried for fidelity to the data model.  `open_` avoids a keyword. -/
structure Candle where
  timestamp : ℚ
  open_ : ℚ
  high : ℚ
  low : ℚ
  close : ℚ
  volume : ℚ
  deriving DecidableEq

/-- The all-zero candle, used as an out-of-range default for list lookups. -/
def defCandle : Candle := ⟨0, 0, 0, 0, 0, 0⟩

/-- Starting denomination of the portfolio: all-asset (`'coin'`) or
all-quote (`'usdt'`). -/
inductive Denom where
  | coin : Denom
  | usdt : Denom
  deriving DecidableEq

/-- Trade direction. -/
inductive TradeType where
  | buy : TradeType
  | sell : TradeType
  deriving DecidableEq

/-- Configuration options of `PortfolioBacktester` (constructor fields). -/
structure Config where
  startingDenomination : Denom
  startingAmount : ℚ
  positionSize : ℚ
  feesAndSlippage : ℚ
  deriving DecidableEq

/-- A trade record as pushed by `PortfolioBacktester.executeTrade`. -/
structure Trade where
  index : ℕ
  timestamp : ℚ
  type : TradeType
  price : ℚ
  amount : ℚ
  value : ℚ
  coinBalance : ℚ
  usdtBalance : ℚ
  totalValue : ℚ
  fees : ℚ
  deriving DecidableEq

/-- Mutable per-run portfolio state of `PortfolioBacktester`
(`coinBalance`, `usdtBalance`, `trades`, `totalFeesPaid`). -/
structure PState where
  coinBalance : ℚ
  usdtBalance : ℚ
  trades : List Trade
  totalFeesPaid : ℚ
  deriving DecidableEq

/-- `PortfolioBacktester.reset`: set balances from the starting denomination
and amount, clear the trade log and the fee accumulator. -/
def reset (cfg : Config) : PState :=
  if cfg.startingDenomination = Denom.coin then
    { coinBalance := cfg.startingAmount, usdtBalance := 0, trades := [], totalFeesPaid := 0 }
  else
    { coinBalance := 0, usdtBalance := cfg.startingAmount, trades := [], totalFeesPaid := 0 }

/-- `PortfolioBacktester.applyFeesAndSlippage`: accumulates
`amount * price * feesAndSlippage` into `totalFeesPaid` and returns the
amount scaled by the impact factor (`1 - rate` for buys, `1 + rate` for
sells, exactly as in the source). -/
def applyFeesAndSlippage (cfg : Config) (s : PState) (amount price : ℚ)
    (tradeType : TradeType) : PState × ℚ :=
  let impact : ℚ := if tradeType = TradeType.buy then 1 - cfg.feesAndSlippage
                    else 1 + cfg.feesAndSlippage
  let feeAmount := amount * price * cfg.feesAndSlippage
  ({ s with totalFeesPaid := s.totalFeesPaid + feeAmount }, amount * impact)

/-- `PortfolioBacktester.calculateTotalValue`: portfolio value in quote units. -/
def calculateTotalValue (s : PState) (currentPrice : ℚ) : ℚ :=
  s.coinBalance * currentPrice + s.usdtBalance

/-- `PortfolioBacktester.executeTrade`: execute one signal against one candle,
returning the updated state and the appended trade (if any). -/
def executeTrade (cfg : Config) (s : PState) (candleIndex : ℕ) (candle : Candle)
    (signal : ℚ) : PState × Option Trade :=
  let price := candle.close
  if signal = -1 ∧ 0 < s.coinBalance then
    let coinsToSell := s.coinBalance * cfg.positionSize
    let fs := applyFeesAndSlippage cfg s coinsToSell price TradeType.sell
    let usdtReceived := fs.2 * price
    let s' : PState := { fs.1 with
      coinBalance := s.coinBalance - coinsToSell,
      usdtBalance := s.usdtBalance + usdtReceived }
    let trade : Trade :=
      { index := candleIndex, timestamp := candle.timestamp, type := TradeType.sell,
        price := price, amount := coinsToSell, value := usdtReceived,
        coinBalance := s'.coinBalance, usdtBalance := s'.usdtBalance,
        totalValue := calculateTotalValue s' price,
        fees := coinsToSell * price * cfg.feesAndSlippage }
    ({ s' with trades := s'.trades ++ [trade] }, some trade)
  else if signal = 1 ∧ 0 < s.usdtBalance then
    let theoreticalCoins := s.usdtBalance / price
    let fs := applyFeesAndSlippage cfg s theoreticalCoins price TradeType.buy
    let coinsToBuy := fs.2
    let usdtSpent := s.usdtBalance
    let s' : PState := { fs.1 with
      coinBalance := s.coinBalance + coinsToBuy,
      usdtBalance := 0 }
    let trade : Trade :=
      { index := candleIndex, timestamp := candle.timestamp, type := TradeType.buy,
        price := price, amount := coinsToBuy, value := usdtSpent,
        coinBalance := s'.coinBalance, usdtBalance := s'.usdtBalance,
        totalValue := calculateTotalValue s' price,
        fees := usdtSpent * cfg.feesAndSlippage }
    ({ s' with trades := s'.trades ++ [trade] }, some trade)
  else
    (s, none)

/-- Minimal per-trade data kept by `PortfolioBacktester.run` for the
win/loss calculation: `{type, price, amount, index}`. -/
structure MiniTrade where
  type : TradeType
  price : ℚ
  amount : ℚ
  index : ℕ
  deriving DecidableEq

/-- A buy→sell round-trip pair produced by
`calculateTradePairsFromMinimalData`. -/
structure TradePair where
  profit : ℚ
  profitPct : ℚ
  holdingPeriod : ℤ
  deriving DecidableEq

/-- Loop of `calculateTradePairsFromMinimalData`: pair each sell with the
most recent unmatched buy, strictly in execution order. -/
def tradePairsLoop : Option MiniTrade → List MiniTrade → List TradePair
  | _, [] => []
  | currentBuy, t :: rest =>
    match t.type with
    | TradeType.buy => tradePairsLoop (some t) rest
    | TradeType.sell =>
      match currentBuy with
      | some b =>
        { profit := (t.price - b.price) * b.amount,
          profitPct := ((t.price - b.price) / b.price) * 100,
          holdingPeriod := (t.index : ℤ) - (b.index : ℤ) } :: tradePairsLoop none rest
      | none => tradePairsLoop none rest

/-- `PortfolioBacktester.calculateTradePairsFromMinimalData`. -/
def calculateTradePairsFromMinimalData (trades : List MiniTrade) : List TradePair :=
  tradePairsLoop none trades

/-- `PortfolioBacktester.calculateMaxDrawdown`: peak-to-trough decline over
the per-bar portfolio-value sequence. -/
def calculateMaxDrawdown (portfolioValues : List ℚ) : ℚ :=
  match portfolioValues with
  | [] => 0
  | v0 :: _ =>
    (portfolioValues.foldl
      (fun (acc : ℚ × ℚ) v =>
        let peak := if acc.1 < v then v else acc.1
        let drawdown := peak - v
        (peak, if acc.2 < drawdown then drawdown else acc.2))
      (v0, 0)).2

/-- Lightweight metrics record returned by `PortfolioBacktester.run`
(dates are kept as raw timestamps). -/
structure Metrics where
  initialValue : ℚ
  finalValue : ℚ
  totalReturn : ℚ
  totalTrades : ℕ
  winRate : ℚ
  avgProfit : ℚ
  maxDrawdown : ℚ
  maxDrawdownPct : ℚ
  finalCoinBalance : ℚ
  finalUsdtBalance : ℚ
  isActive : Bool
  startTimestamp : ℚ
  endTimestamp : ℚ
  totalFees : ℚ
  deriving DecidableEq

/-- `PortfolioBacktester.calculateLightweightMetrics`, taking the final
portfolio state and the per-bar value sequence accumulated by `run`. -/
def calculateLightweightMetrics (s : PState) (candleData : List Candle)
    (trades : List MiniTrade) (startValue : ℚ) (portfolioValues : List ℚ) : Metrics :=
  let finalPrice := (candleData.getLastD defCandle).close
  let finalValue := calculateTotalValue s finalPrice
  let tradePairs := calculateTradePairsFromMinimalData trades
  let winningTrades := tradePairs.filter (fun pair => 0 < pair.profit)
  let maxDrawdown := calculateMaxDrawdown portfolioValues
  { initialValue := startValue,
    finalValue := finalValue,
    totalReturn := if 0 < startValue then ((finalValue - startValue) / startValue) * 100 else 0,
    totalTrades := trades.length,
    winRate := if tradePairs.length ≠ 0 then
        ((winningTrades.length : ℚ) / (tradePairs.length : ℚ)) * 100 else 0,
    avgProfit := if winningTrades.length ≠ 0 then
        (winningTrades.map (·.profit)).sum / (winningTrades.length : ℚ) else 0,
    maxDrawdown := maxDrawdown,
    maxDrawdownPct := if 0 < startValue then (maxDrawdown / startValue) * 100 else 0,
    finalCoinBalance := s.coinBalance,
    finalUsdtBalance := s.usdtBalance,
    isActive := decide (0 < s.coinBalance),
    startTimestamp := (candleData.headD defCandle).timestamp,
    endTimestamp := (candleData.getLastD defCandle).timestamp,
    totalFees := s.totalFeesPaid }

/-- Per-candle loop of `PortfolioBacktester.run` over index-aligned
(candle, signal) pairs, threading the portfolio state and accumulating the
per-bar portfolio values and the minimal trade data. -/
def runLoop (cfg : Config) : ℕ → PState → List ℚ → List MiniTrade →
    List (Candle × ℚ) → PState × List ℚ × List MiniTrade
  | _, s, pvs, mts, [] => (s, pvs, mts)
  | i, s, pvs, mts, (candle, signal) :: rest =>
    let step : PState × Option Trade :=
      if signal ≠ 0 then executeTrade cfg s i candle signal else (s, none)
    let mts' := match step.2 with
      | some t => mts ++ [⟨t.type, t.price, t.amount, i⟩]
      | none => mts
    runLoop cfg (i + 1) step.1 (pvs ++ [calculateTotalValue step.1 candle.close]) mts' rest

/-- `PortfolioBacktester.run`: reset, validate the input shape, process every
candle, and compute the lightweight metrics.  The source throws on a length
mismatch, and dereferencing `candleData[0]` / the last candle of an empty
array also throws; both are modelled as `Except.error`. -/
def run (cfg : Config) (candleData : List Candle) (signals : List ℚ) :
    Except String Metrics :=
  if candleData.length ≠ signals.length then
    Except.error "Invalid input data: candle data and signals must have same length"
  else
    match candleData with
    | [] => Except.error "TypeError: cannot read properties of undefined"
    | c0 :: _ =>
      let s0 := reset cfg
      let startValue := if cfg.startingDenomination = Denom.coin then
          cfg.startingAmount * c0.close else cfg.startingAmount
      let final := runLoop cfg 0 s0 [] [] (candleData.zip signals)
      Except.ok (calculateLightweightMetrics final.1 candleData final.2.2 startValue final.2.1)

end Muuned

namespace TechnicalIndicators

/-- Entry `prices[i]` (indices are kept in range by the callers). -/
def priceAt (prices : List ℚ) (i : ℕ) : ℚ := prices.getD i 0

/-- Sum of the window `prices[i - period + 1 .. i]` used by `sma`. -/
def windowSum (prices : List ℚ) (i period : ℕ) : ℚ :=
  ((prices.drop (i + 1 - period)).take period).sum

/-- `TechnicalIndicators.sma`.  The JS loop writes `result[i]` for
`i = period-1 .. length-1` into an initially empty array: if the input is
shorter than the period the result stays empty, otherwise the result has the
input's length with holes (`none`) before index `period - 1`. -/
def sma (prices : List ℚ) (period : ℕ) : List (Option ℚ) :=
  if prices.length < period then []
  else
    (List.range prices.length).map fun i =>
      if i + 1 < period then none
      else some (windowSum prices i period / (period : ℚ))

/-- Value of `TechnicalIndicators.ema` at index `period - 1 + k`:
the seed is the average of the first `period` prices, and each later entry is
`(price - prev) * multiplier + prev` with `multiplier = 2 / (period + 1)`. -/
def emaVal (prices : List ℚ) (period : ℕ) : ℕ → ℚ
  | 0 => (prices.take period).sum / (period : ℚ)
  | k + 1 =>
    let m : ℚ := 2 / ((period : ℚ) + 1)
    (priceAt prices (period + k) - emaVal prices period k) * m + emaVal prices period k

/-- `TechnicalIndicators.ema`.  The JS code always writes `result[period-1]`
(the seed), so the result has length `max period length`, with holes before
index `period - 1`. -/
def ema (prices : List ℚ) (period : ℕ) : List (Option ℚ) :=
  (List.range (max period prices.length)).map fun i =>
    if i + 1 < period then none
    else some (emaVal prices period (i + 1 - period))

/-- Weighted window sum of `wma`: weight `period - j` on `prices[i - j]`
(most recent price gets the largest weight), divided by `1 + 2 + ⋯ + period`. -/
def wmaVal (prices : List ℚ) (i period : ℕ) : ℚ :=
  (((List.range period).map fun j => priceAt prices (i - j) * ((period - j : ℕ) : ℚ)).sum) /
    (((List.range period).map fun j => ((j + 1 : ℕ) : ℚ)).sum)

/-- `TechnicalIndicators.wma`: same shape as `sma` (holes before the warm-up
point, empty result when the input is shorter than the period). -/
def wma (prices : List ℚ) (period : ℕ) : List (Option ℚ) :=
  if prices.length < period then []
  else
    (List.range prices.length).map fun i =>
      if i + 1 < period then none
      else some (wmaVal prices i period)

/-- Entry `i` of `hma`'s `diff` array: set only where both `wma` values are
defined (`2 * wma1[i] - wma2[i]`), a hole otherwise. -/
def hmaDiffEntry (prices : List ℚ) (halfPeriod period i : ℕ) : Option ℚ :=
  match (wma prices halfPeriod).getD i none, (wma prices period).getD i none with
  | some a, some b => some (2 * a - b)
  | _, _ => none

/-- `TechnicalIndicators.hma`: `wma` of the compacted (holes filtered out)
sequence `2 * wma(prices, ⌊period/2⌋) - wma(prices, period)`, with period
`⌊√period⌋`. -/
def hma (prices : List ℚ) (period : ℕ) : List (Option ℚ) :=
  let halfPeriod := period / 2
  let sqrtPeriod := Nat.sqrt period
  let diff := (List.range prices.length).filterMap (hmaDiffEntry prices halfPeriod period)
  wma diff sqrtPeriod

end TechnicalIndicators

namespace Muuned

/-- Result record of `ScriptEditor.executeScript`. -/
structure SignalData where
  signals : List ℚ
  signalCount : ℕ
  length : ℕ
  deriving DecidableEq

/-- Errors thrown around the Signal Generation Contract.  The source throws
`Error` objects whose messages carry the data recorded here. -/
inductive ScriptError where
  | lengthMismatch (got expected : ℕ) : ScriptError
  | invalidSignal (index : ℕ) (value : ℚ) : ScriptError
  | runtime (msg : String) : ScriptError
  deriving DecidableEq

/-- The per-element check of the validation loop:
`signal !== -1 && signal !== 0 && signal !== 1` rejects the value. -/
def isValidSignal (v : ℚ) : Bool := v = -1 || v = 0 || v = 1

/-- The validation loop of `ScriptEditor.executeScript`: scan the output from
the front and report the first invalid entry with its index and value. -/
def firstInvalidFrom : ℕ → List ℚ → Option (ℕ × ℚ)
  | _, [] => none
  | i, v :: rest =>
    if isValidSignal v then firstInvalidFrom (i + 1) rest else some (i, v)

/-- `ScriptEditor.executeScript`, given the untrusted strategy output
(`result`, already known to be an array of numbers — the `Array.isArray`
check is enforced by the type) and the price-sequence length `n`:
the length is checked, then every element is validated before the signal
data is returned. -/
def executeScript (n : ℕ) (result : List ℚ) : Except ScriptError SignalData :=
  if result.length ≠ n then
    Except.error (ScriptError.lengthMismatch result.length n)
  else
    match firstInvalidFrom 0 result with
    | some (i, v) => Except.error (ScriptError.invalidSignal i v)
    | none =>
      Except.ok { signals := result,
                  signalCount := (result.filter fun s => s ≠ 0).length,
                  length := result.length }

/-- `BacktestEngine.runSingle` (part_007): run the strategy script, validate
its output, and only then run the portfolio simulator on the shared candle
data.  The untrusted script itself is not embeddable, so its raw output is a
parameter; a script-validation error propagates and the simulator is never
invoked. -/
def runSingle (cfg : Config) (candleData : List Candle) (scriptOutput : List ℚ) :
    Except ScriptError Metrics :=
  match executeScript candleData.length scriptOutput with
  | Except.error e => Except.error e
  | Except.ok signalData =>
    match run cfg candleData signalData.signals with
    | Except.error msg => Except.error (ScriptError.runtime msg)
    | Except.ok metrics => Except.ok metrics

/-- A `ParameterSet`: an ordered assignment of numeric values to parameter
names (a JS object with its key insertion order). -/
abbrev Params : Type := List (String × ℚ)

/-- A `ParameterSpace` as consumed by
`MuunedApp.generateParameterCombinations`: the array-valued keys (in declared
order) and the scalar parameters.  In the source both live in one JS object;
the split only affects the key order inside each combination object, which
the recursion reproduces anyway (array keys first, then scalars). -/
structure ParamSpace where
  arrayParams : List (String × List ℚ)
  scalarParams : List (String × ℚ)

/-- The recursion `generate(index, current)` of
`MuunedApp.generateParameterCombinations`: iterate the values of the current
key and recurse into the remaining keys, so the right-most key varies
fastest. -/
def expand : List (String × List ℚ) → List Params
  | [] => [([] : List (String × ℚ))]
  | (key, values) :: rest =>
    values.flatMap fun v => (expand rest).map fun tail => (key, v) :: tail

/-- `MuunedApp.generateParameterCombinations`: Cartesian product over the
array-valued keys, with every scalar parameter copied unchanged into each
combination. -/
def generateParameterCombinations (space : ParamSpace) : List Params :=
  (expand space.arrayParams).map fun c => c ++ space.scalarParams

/-- Result record of one combination in `BacktestEngine.runBatch`:
`runSingle`'s `{parameters, ...metrics}` spread or `createErrorResult`'s
record; `error` discriminates the two. -/
structure BatchResult where
  parameters : Params
  initialValue : ℚ
  finalValue : ℚ
  totalReturn : ℚ
  winRate : ℚ
  totalTrades : ℕ
  maxDrawdown : ℚ
  isActive : Bool
  error : Option String
  deriving DecidableEq

/-- The all-zero default `BatchResult`, used only as an out-of-range default
for list lookups in theorem statements. -/
def defBatchResult : BatchResult :=
  { parameters := ([] : List (String × ℚ)), initialValue := 0, finalValue := 0,
    totalReturn := 0, winRate := 0, totalTrades := 0, maxDrawdown := 0,
    isActive := false, error := none }

/-- `BacktestEngine.createErrorResult`: sentinel record carrying the failing
`ParameterSet` and the error message. -/
def createErrorResult (params : Params) (msg : String) : BatchResult :=
  { parameters := params, initialValue := 0, finalValue := 0, totalReturn := -100,
    winRate := 0, totalTrades := 0, maxDrawdown := 0, isActive := false,
    error := some msg }

/-- The accumulation loop of `BacktestEngine.runBatch` (before the final
sort): every `ParameterSet` is tried in enumeration order, and a failure of
one combination is caught and converted into an error result.  The batching
by 50 only inserts yields/progress callbacks between slices and does not
change the accumulated list.  The per-combination computation (`runSingle`,
which runs the untrusted strategy script) is a parameter. -/
def runBatchResults (runOne : Params → Except String BatchResult)
    (parameterSets : List Params) : List BatchResult :=
  parameterSets.map fun params =>
    match runOne params with
    | Except.ok result => result
    | Except.error e => createErrorResult params e

/-- Comparator of the final ranking:
`this.results.sort((a, b) => b.finalValue - a.finalValue)`. -/
def byFinalValueDesc (a b : BatchResult) : Bool :=
  decide (b.finalValue ≤ a.finalValue)

/-- `BacktestEngine.runBatch`: the accumulated results sorted descending by
`finalValue`.  JS `Array.prototype.sort` is stable (ES2019), modelled by the
stable `List.mergeSort`. -/
def runBatch (runOne : Params → Except String BatchResult)
    (parameterSets : List Params) : List BatchResult :=
  (runBatchResults runOne parameterSets).mergeSort byFinalValueDesc

/-! ### Claim theorems -/

/-- C1: the claim states that an executed sell credits
`soldAmount * price * (1 - feeRate)` to the quote balance.  The code instead
multiplies the sell proceeds by `(1 + feeRate)` — `applyFeesAndSlippage`
uses impact `1 + rate` for sells — crediting the fee to the trader while the
very same `amount * price * rate` is accumulated into `totalFeesPaid` and
recorded on the trade as a cost.  At the failing input (coin balance 10,
positionSize 1, fee rate 1/1000, execution price 100, sell signal) the quote
balance becomes `10 * 100 * (1 + 1/1000) = 1001`, not `999` as the
claim/spec require, even though a `Trade` is appended and the fee is booked
as paid. -/
theorem C1_sell_credits_fee_instead_of_charging :
    (executeTrade ⟨Denom.coin, 10, 1, 1/1000⟩ (reset ⟨Denom.coin, 10, 1, 1/1000⟩)
        0 ⟨0, 0, 0, 0, 100, 0⟩ (-1)).1.usdtBalance = 10 * 100 * (1 + 1/1000)
    ∧ (10 * 100 * (1 + 1/1000) : ℚ) ≠ 10 * 100 * (1 - 1/1000)
    ∧ (executeTrade ⟨Denom.coin, 10, 1, 1/1000⟩ (reset ⟨Denom.coin, 10, 1, 1/1000⟩)
        0 ⟨0, 0, 0, 0, 100, 0⟩ (-1)).1.totalFeesPaid = 10 * 100 * (1/1000)
    ∧ (executeTrade ⟨Denom.coin, 10, 1, 1/1000⟩ (reset ⟨Denom.coin, 10, 1, 1/1000⟩)
        0 ⟨0, 0, 0, 0, 100, 0⟩ (-1)).1.trades.length = 1 := by
  refine ⟨?_, by norm_num, ?_, ?_⟩ <;>
    · simp [executeTrade, reset, applyFeesAndSlippage, calculateTotalValue]
      try norm_num

/-- C3 counterexample: with positionSize 1/2, quote balance 100 and execution
price 10, the claim says the buy spends `positionSize * quoteBalance = 50`
and retains the other 50; the code sets the quote balance to `0`. -/
theorem C3_counterexample :
    (executeTrade ⟨Denom.usdt, 100, 1/2, 0⟩ (reset ⟨Denom.usdt, 100, 1/2, 0⟩)
        0 ⟨0, 0, 0, 0, 10, 0⟩ 1).1.usdtBalance = 0
    ∧ ((1 - 1/2) * 100 : ℚ) ≠ 0 := by
  constructor
  · simp [executeTrade, reset, applyFeesAndSlippage, calculateTotalValue]
  · norm_num

/-- C3 (amended): an executed buy (signal 1 with positive quote balance)
spends the entire quote balance regardless of `positionSize`: the quote
balance becomes 0, the coin balance grows by
`(quoteBalance / price) * (1 - feeRate)`, and a Trade is appended;
`positionSize` scales only sells. -/
theorem C3_buy_spends_full_quote_balance (cfg : Config) (s : PState) (i : ℕ)
    (candle : Candle) (h : 0 < s.usdtBalance) :
    (executeTrade cfg s i candle 1).1.usdtBalance = 0
    ∧ (executeTrade cfg s i candle 1).1.coinBalance
        = s.coinBalance + (s.usdtBalance / candle.close) * (1 - cfg.feesAndSlippage)
    ∧ (executeTrade cfg s i candle 1).1.trades.length = s.trades.length + 1 := by
  have h1 : ¬((1 : ℚ) = -1 ∧ 0 < s.coinBalance) := by
    rintro ⟨h1, -⟩
    norm_num at h1
  have h2 : ((1 : ℚ) = 1 ∧ 0 < s.usdtBalance) := ⟨rfl, h⟩
  simp [executeTrade, h1, h2, applyFeesAndSlippage]

/-- C3 witness: the amended theorem at the counterexample's input. -/
theorem C3_buy_spends_full_quote_balance_witness :
    (executeTrade ⟨Denom.usdt, 100, 1/2, 0⟩ ⟨0, 100, [], 0⟩ 0 ⟨0, 0, 0, 0, 10, 0⟩ 1).1.usdtBalance = 0
    ∧ (executeTrade ⟨Denom.usdt, 100, 1/2, 0⟩ ⟨0, 100, [], 0⟩ 0 ⟨0, 0, 0, 0, 10, 0⟩ 1).1.coinBalance
        = 0 + ((100 : ℚ) / 10) * (1 - 0)
    ∧ (executeTrade ⟨Denom.usdt, 100, 1/2, 0⟩ ⟨0, 100, [], 0⟩ 0 ⟨0, 0, 0, 0, 10, 0⟩ 1).1.trades.length
        = List.length ([] : List Trade) + 1 :=
  C3_buy_spends_full_quote_balance ⟨Denom.usdt, 100, 1/2, 0⟩ ⟨0, 100, [], 0⟩ 0
    ⟨0, 0, 0, 0, 10, 0⟩ (by norm_num)

/-- C10: with a valid configuration (positive positionSize at most 1, fee
rate in [0,1], non-negative starting amount) and strictly positive execution
prices, both balances are non-negative after `reset` and stay non-negative
across every `executeTrade` call; a sell with zero asset balance and a buy
with zero quote balance are no-ops. -/
theorem C10_balances_nonneg (cfg : Config) (s : PState) (i : ℕ) (candle : Candle)
    (signal : ℚ)
    (hp0 : 0 < cfg.positionSize) (hp1 : cfg.positionSize ≤ 1)
    (hf0 : 0 ≤ cfg.feesAndSlippage) (hf1 : cfg.feesAndSlippage ≤ 1)
    (hamt : 0 ≤ cfg.startingAmount) (hprice : 0 < candle.close)
    (hc : 0 ≤ s.coinBalance) (hu : 0 ≤ s.usdtBalance) :
    (0 ≤ (reset cfg).coinBalance ∧ 0 ≤ (reset cfg).usdtBalance)
    ∧ (0 ≤ (executeTrade cfg s i candle signal).1.coinBalance
        ∧ 0 ≤ (executeTrade cfg s i candle signal).1.usdtBalance)
    ∧ (signal = -1 → s.coinBalance = 0 → executeTrade cfg s i candle signal = (s, none))
    ∧ (signal = 1 → s.usdtBalance = 0 → executeTrade cfg s i candle signal = (s, none)) := by
  refine ⟨?_, ?_, ?_, ?_⟩
  · unfold reset
    split <;> simp [hamt]
  · unfold executeTrade applyFeesAndSlippage
    split
    · rename_i hsell
      constructor
      · simp only
        nlinarith [mul_nonneg hc (sub_nonneg.mpr hp1)]
      · simp only [reduceCtorEq, if_false]
        have : 0 ≤ s.coinBalance * cfg.positionSize * (1 + cfg.feesAndSlippage) * candle.close :=
          mul_nonneg (mul_nonneg (mul_nonneg hc hp0.le)
            (by linarith : (0:ℚ) ≤ 1 + cfg.feesAndSlippage)) hprice.le
        linarith
    · split
      · rename_i hbuy
        constructor
        · simp only [if_true]
          have : 0 ≤ s.usdtBalance / candle.close * (1 - cfg.feesAndSlippage) :=
            mul_nonneg (div_nonneg hu hprice.le) (sub_nonneg.mpr hf1)
          linarith
        · simp only
          exact le_refl 0
      · exact ⟨hc, hu⟩
  · intro hsig hzero
    have h1 : ¬(signal = -1 ∧ 0 < s.coinBalance) := by
      rintro ⟨-, hlt⟩
      rw [hzero] at hlt
      exact lt_irrefl 0 hlt
    have h2 : ¬(signal = 1 ∧ 0 < s.usdtBalance) := by
      rintro ⟨h1', -⟩
      rw [hsig] at h1'
      norm_num at h1'
    simp [executeTrade, h1, h2]
  · intro hsig hzero
    have h1 : ¬(signal = -1 ∧ 0 < s.coinBalance) := by
      rintro ⟨h1', -⟩
      rw [hsig] at h1'
      norm_num at h1'
    have h2 : ¬(signal = 1 ∧ 0 < s.usdtBalance) := by
      rintro ⟨-, hlt⟩
      rw [hzero] at hlt
      exact lt_irrefl 0 hlt
    simp [executeTrade, h1, h2]

/-- Helper: the per-candle loop neither trades nor touches the portfolio
state when every signal is `0`. -/
theorem runLoop_zero_signals (cfg : Config) :
    ∀ (zs : List (Candle × ℚ)) (i : ℕ) (s : PState) (pvs : List ℚ)
      (mts : List MiniTrade), (∀ p ∈ zs, p.2 = 0) →
      (runLoop cfg i s pvs mts zs).1 = s ∧ (runLoop cfg i s pvs mts zs).2.2 = mts
  | [], _, _, _, _, _ => ⟨rfl, rfl⟩
  | (c, sig) :: rest, i, s, pvs, mts, hz => by
    have hsig : sig = 0 := hz (c, sig) (List.mem_cons_self _ _)
    subst hsig
    have hrest : ∀ p ∈ rest, p.2 = 0 := fun p hp => hz p (List.mem_cons_of_mem _ hp)
    simp only [runLoop, ne_eq, not_true_eq_false, if_neg, reduceIte]
    exact runLoop_zero_signals cfg rest (i + 1) s _ mts hrest

/-- C2 counterexample: starting denomination `'coin'`, amount 1, with closes
1 then 2 and an all-zero signal sequence: zero trades, but
`initialValue = 1` and `finalValue = 2`, so `finalValue ≠ initialValue`. -/
theorem C2_counterexample :
    (run ⟨Denom.coin, 1, 1, 0⟩ [⟨0, 0, 0, 0, 1, 0⟩, ⟨1, 0, 0, 0, 2, 0⟩]
        (List.replicate 2 0)).toOption.map
      (fun m => (m.initialValue, m.finalValue, m.totalTrades, m.totalFees))
      = some (1, 2, 0, 0)
    ∧ (1 : ℚ) ≠ 2 := by
  constructor
  · simp [run, runLoop, reset, executeTrade, calculateTotalValue,
      calculateLightweightMetrics, calculateTradePairsFromMinimalData, tradePairsLoop,
      calculateMaxDrawdown, defCandle, Except.toOption]
  · norm_num

/-- C2 (amended): an all-zero signal sequence of matching length yields zero
trades and zero fees for every configuration; with the quote (`'usdt'`)
starting denomination `finalValue = initialValue` exactly, while with the
`'coin'` denomination `initialValue` is the amount times the first close and
`finalValue` the amount times the last close (equal only when those closes
coincide). -/
theorem C2_zero_signals (cfg : Config) (candleData : List Candle)
    (h : candleData ≠ []) :
    ∃ m : Metrics,
      run cfg candleData (List.replicate candleData.length 0) = Except.ok m
      ∧ m.totalTrades = 0 ∧ m.totalFees = 0
      ∧ (cfg.startingDenomination = Denom.usdt → m.finalValue = m.initialValue)
      ∧ (cfg.startingDenomination = Denom.coin →
          m.initialValue = cfg.startingAmount * (candleData.headD defCandle).close
          ∧ m.finalValue = cfg.startingAmount * (candleData.getLastD defCandle).close) := by
  obtain ⟨c0, rest, rfl⟩ := List.exists_cons_of_ne_nil h
  have hz : ∀ p ∈ (c0 :: rest).zip (List.replicate (c0 :: rest).length (0 : ℚ)), p.2 = 0 := by
    intro p hp
    exact List.eq_of_mem_replicate (List.of_mem_zip hp).2
  have hloop := runLoop_zero_signals cfg
    ((c0 :: rest).zip (List.replicate (c0 :: rest).length 0)) 0 (reset cfg) [] [] hz
  have hrun : run cfg (c0 :: rest) (List.replicate (c0 :: rest).length 0)
      = Except.ok (calculateLightweightMetrics (reset cfg) (c0 :: rest) []
          (if cfg.startingDenomination = Denom.coin then cfg.startingAmount * c0.close
            else cfg.startingAmount)
          (runLoop cfg 0 (reset cfg) [] []
            ((c0 :: rest).zip (List.replicate (c0 :: rest).length 0))).2.1) := by
    simp only [run, List.length_replicate, ne_eq, not_true_eq_false, if_neg, reduceIte]
    rw [hloop.1, hloop.2]
  refine ⟨_, hrun, ?_, ?_, ?_, ?_⟩
  · simp only [calculateLightweightMetrics, List.length_nil]
  · simp only [calculateLightweightMetrics]
    unfold reset
    split <;> rfl
  · intro hd
    simp only [calculateLightweightMetrics, calculateTotalValue, reset, hd]
    simp
  · intro hd
    simp only [calculateLightweightMetrics, calculateTotalValue, reset, hd]
    simp

/-- C2 witness: the amended theorem at a concrete two-candle input. -/
theorem C2_zero_signals_witness :
    ∃ m : Metrics,
      run ⟨Denom.usdt, 7, 1, 1/100⟩ [⟨0, 0, 0, 0, 1, 0⟩, ⟨1, 0, 0, 0, 2, 0⟩]
          (List.replicate ([⟨0, 0, 0, 0, 1, 0⟩, ⟨1, 0, 0, 0, 2, 0⟩] : List Candle).length 0)
        = Except.ok m
      ∧ m.totalTrades = 0 ∧ m.totalFees = 0
      ∧ ((⟨Denom.usdt, 7, 1, 1/100⟩ : Config).startingDenomination = Denom.usdt →
          m.finalValue = m.initialValue)
      ∧ ((⟨Denom.usdt, 7, 1, 1/100⟩ : Config).startingDenomination = Denom.coin →
          m.initialValue = 7 * (([⟨0, 0, 0, 0, 1, 0⟩, ⟨1, 0, 0, 0, 2, 0⟩] : List Candle).headD defCandle).close
          ∧ m.finalValue = 7 * (([⟨0, 0, 0, 0, 1, 0⟩, ⟨1, 0, 0, 0, 2, 0⟩] : List Candle).getLastD defCandle).close) :=
  C2_zero_signals ⟨Denom.usdt, 7, 1, 1/100⟩ [⟨0, 0, 0, 0, 1, 0⟩, ⟨1, 0, 0, 0, 2, 0⟩]
    (by simp)

/-- Helper: the validation scan reports nothing iff every signal is valid. -/
theorem firstInvalidFrom_none_iff : ∀ (k : ℕ) (l : List ℚ),
    firstInvalidFrom k l = none ↔ ∀ v ∈ l, isValidSignal v = true
  | _, [] => by simp [firstInvalidFrom]
  | k, v :: rest => by
    by_cases hv : isValidSignal v
    · simp [firstInvalidFrom, hv, firstInvalidFrom_none_iff (k + 1) rest]
    · simp only [firstInvalidFrom, hv, if_false, Bool.false_eq_true]
      constructor
      · intro hcontra
        exact absurd hcontra (by simp)
      · intro hall
        exact absurd (hall v (List.mem_cons_self _ _)) hv

/-- Helper: the validation scan reports the first invalid entry together
with its index and value. -/
theorem firstInvalidFrom_first : ∀ (l : List ℚ) (k i : ℕ), i < l.length →
    isValidSignal (l.getD i 0) = false →
    (∀ j, j < i → isValidSignal (l.getD j 0) = true) →
    firstInvalidFrom k l = some (k + i, l.getD i 0)
  | [], _, i, hi, _, _ => absurd hi (by simp)
  | v :: rest, k, 0, _, hbad, _ => by
    simp only [List.getD_cons_zero] at hbad ⊢
    simp [firstInvalidFrom, hbad]
  | v :: rest, k, i + 1, hi, hbad, hok => by
    have hv : isValidSignal v = true := by
      have := hok 0 (Nat.succ_pos i)
      simpa using this
    have hrec := firstInvalidFrom_first rest (k + 1) i (by simpa using hi)
      (by simpa using hbad)
      (fun j hj => by simpa using hok (j + 1) (Nat.succ_lt_succ hj))
    simp only [firstInvalidFrom, hv, if_true, List.getD_cons_succ]
    rw [hrec]
    congr 2
    omega

/-- C4: `executeScript` succeeds exactly when the strategy output has the
price-sequence length and every element is `-1`, `0` or `1`; the first
violation at index `i` yields an error carrying `i` and the offending value;
and a validation error propagates through `runSingle` unchanged, so the
whole output is validated before the simulator consumes any value. -/
theorem C4_output_validation (n : ℕ) (result : List ℚ) :
    ((executeScript n result).isOk = true ↔
      (result.length = n ∧ ∀ v ∈ result, isValidSignal v = true))
    ∧ (∀ i, i < result.length → result.length = n →
        isValidSignal (result.getD i 0) = false →
        (∀ j, j < i → isValidSignal (result.getD j 0) = true) →
        executeScript n result
          = Except.error (ScriptError.invalidSignal i (result.getD i 0)))
    ∧ (∀ (cfg : Config) (candleData : List Candle) (e : ScriptError),
        executeScript candleData.length result = Except.error e →
        runSingle cfg candleData result = Except.error e) := by
  refine ⟨?_, ?_, ?_⟩
  · by_cases hl : result.length = n
    · rcases hE : firstInvalidFrom 0 result with _ | ⟨i, v⟩
      · have hall := (firstInvalidFrom_none_iff 0 result).mp hE
        simp only [executeScript, hl, ne_eq, not_true_eq_false, if_neg, reduceIte, hE,
          Except.isOk, Except.toBool, true_iff, true_and]
        exact hall
      · simp only [executeScript, hl, ne_eq, not_true_eq_false, if_neg, reduceIte, hE,
          Except.isOk, Except.toBool, Bool.false_eq_true, false_iff, not_and]
        intro _ hall
        have := (firstInvalidFrom_none_iff 0 result).mpr hall
        rw [hE] at this
        exact absurd this (by simp)
    · simp [executeScript, hl, Except.isOk, Except.toBool]
  · intro i hi hl hbad hok
    have h0 := firstInvalidFrom_first result 0 i hi hbad hok
    simp [executeScript, hl, h0]
  · intro cfg candleData e he
    simp [runSingle, he]

/-- C4 witness: a strategy output of length 10 with value `2` at index 5
fails validation with exactly that index and value, and the simulator is
never reached. -/
theorem C4_output_validation_witness :
    executeScript 10 [0, 0, 0, 0, 0, 2, 0, 0, 0, 0]
      = Except.error (ScriptError.invalidSignal 5 2)
    ∧ runSingle ⟨Denom.usdt, 1, 1, 0⟩ (List.replicate 10 defCandle)
        [0, 0, 0, 0, 0, 2, 0, 0, 0, 0]
      = Except.error (ScriptError.invalidSignal 5 2) := by
  have h := C4_output_validation 10 [0, 0, 0, 0, 0, 2, 0, 0, 0, 0]
  have h1 := h.2.1 5 (by norm_num) (by norm_num)
    (by norm_num [isValidSignal])
    (by
      intro j hj
      interval_cases j <;> norm_num [isValidSignal])
  have hgd : ([0, 0, 0, 0, 0, 2, 0, 0, 0, 0] : List ℚ).getD 5 0 = 2 := by norm_num
  rw [hgd] at h1
  refine ⟨h1, ?_⟩
  exact h.2.2 ⟨Denom.usdt, 1, 1, 0⟩ (List.replicate 10 defCandle) _ (by simpa using h1)

/-- Helper: summing a constant over a list multiplies it by the length. -/
theorem sum_map_const {α : Type} (l : List α) (c : ℕ) :
    (l.map fun _ => c).sum = l.length * c := by
  induction l with
  | nil => simp
  | cons a t ih =>
    simp only [List.map_cons, List.sum_cons, List.length_cons, ih]
    ring

/-- Helper: the expansion recursion produces one combination per element of
the Cartesian product of the value sets. -/
theorem expand_length : ∀ arrays : List (String × List ℚ),
    (expand arrays).length = (arrays.map fun kv => kv.2.length).prod
  | [] => by simp [expand]
  | (key, values) :: rest => by
    simp only [expand, List.length_flatMap, List.map_map, List.map_cons, List.prod_cons]
    have h1 : (List.length ∘ fun v =>
          List.map (fun tail => (key, v) :: tail) (expand rest))
        = fun _ => (expand rest).length := funext fun v => by simp
    rw [h1, sum_map_const, expand_length rest]

/-- Helper: every expanded combination assigns each array-valued key, in
declared order, one value from that key's value set. -/
theorem expand_mem : ∀ (arrays : List (String × List ℚ)) (c : Params),
    c ∈ expand arrays →
    List.Forall₂ (fun (p : String × ℚ) (kv : String × List ℚ) =>
      p.1 = kv.1 ∧ p.2 ∈ kv.2) c arrays
  | [], c, hc => by
    simp only [expand, List.mem_singleton] at hc
    subst hc
    exact List.Forall₂.nil
  | (key, values) :: rest, c, hc => by
    simp only [expand, List.mem_flatMap, List.mem_map] at hc
    obtain ⟨v, hv, tail, htail, rfl⟩ := hc
    exact List.Forall₂.cons ⟨rfl, hv⟩ (expand_mem rest tail htail)

/-- Helper ("right-most key fastest-varying"): expanding with one more key
appended at the end enumerates, for each combination of the earlier keys in
order, all values of the appended key consecutively. -/
theorem expand_snoc (arrays : List (String × List ℚ)) (key : String)
    (values : List ℚ) :
    expand (arrays ++ [(key, values)])
      = (expand arrays).flatMap fun c => values.map fun v => c ++ [(key, v)] := by
  induction arrays with
  | nil => simp [expand, List.map_eq_flatMap]
  | cons kv rest ih =>
    obtain ⟨key0, values0⟩ := kv
    have ih' : expand (List.append rest [(key, values)])
        = (expand rest).flatMap fun c => List.map (fun v => c ++ [(key, v)]) values := ih
    simp only [List.cons_append, expand, ih, ih']
    simp only [List.flatMap_assoc, List.flatMap_map, List.map_flatMap, List.map_map,
      Function.comp_def, List.cons_append]

/-- C5: the number of generated `ParameterSet`s equals the product of the
array-valued keys' value-set sizes, and each generated combination assigns
one value per array-valued key (in declared order) followed by every scalar
parameter copied unchanged. -/
theorem C5_expansion_count (space : ParamSpace) :
    (generateParameterCombinations space).length
      = (space.arrayParams.map fun kv => kv.2.length).prod
    ∧ ∀ c ∈ generateParameterCombinations space, ∃ a,
        c = a ++ space.scalarParams
        ∧ List.Forall₂ (fun (p : String × ℚ) (kv : String × List ℚ) =>
            p.1 = kv.1 ∧ p.2 ∈ kv.2) a space.arrayParams := by
  constructor
  · simp [generateParameterCombinations, expand_length]
  · intro c hc
    simp only [generateParameterCombinations, List.mem_map] at hc
    obtain ⟨a, ha, rfl⟩ := hc
    exact ⟨a, rfl, expand_mem space.arrayParams a ha⟩

/-- C5 witness: a 2 × 1 space with one scalar parameter yields 2
combinations, and a concrete combination decomposes as required. -/
theorem C5_expansion_count_witness :
    (generateParameterCombinations ⟨[("a", [1, 2]), ("b", [3])], [("s", 9)]⟩).length
      = (([("a", [1, 2]), ("b", [3])] : List (String × List ℚ)).map
          fun kv => kv.2.length).prod
    ∧ ∃ a, ([("a", 1), ("b", 3), ("s", 9)] : Params) = a ++ [("s", 9)]
        ∧ List.Forall₂ (fun (p : String × ℚ) (kv : String × List ℚ) =>
            p.1 = kv.1 ∧ p.2 ∈ kv.2) a [("a", [1, 2]), ("b", [3])] := by
  have h := C5_expansion_count ⟨[("a", [1, 2]), ("b", [3])], [("s", 9)]⟩
  exact ⟨h.1, h.2 [("a", 1), ("b", 3), ("s", 9)]
    (by simp [generateParameterCombinations, expand])⟩

/-- C6: enumeration is deterministic in declared key order with the
right-most key fastest-varying (appending a key at the end enumerates its
values innermost), and the space `{emaFloor:[5,10], emaCeiling:[30]}`
expands to exactly
`[{emaFloor:5, emaCeiling:30}, {emaFloor:10, emaCeiling:30}]` in that
order. -/
theorem C6_enumeration_order :
    (∀ (arrays : List (String × List ℚ)) (key : String) (values : List ℚ),
        expand (arrays ++ [(key, values)])
          = (expand arrays).flatMap fun c => values.map fun v => c ++ [(key, v)])
    ∧ generateParameterCombinations ⟨[("emaFloor", [5, 10]), ("emaCeiling", [30])], []⟩
        = [[("emaFloor", 5), ("emaCeiling", 30)], [("emaFloor", 10), ("emaCeiling", 30)]] := by
  constructor
  · exact expand_snoc
  · rfl

/-- Helper: two entries of a list, in index order, form a sublist. -/
theorem pair_getD_sublist {α : Type} :
    ∀ (l : List α) (i j : ℕ) (d : α), i < j → j < l.length →
      List.Sublist [l.getD i d, l.getD j d] l
  | [], _, j, _, _, hj => absurd hj (by simp)
  | a :: t, 0, j + 1, d, _, hj => by
    simp only [List.getD_cons_zero, List.getD_cons_succ]
    refine List.Sublist.cons₂ a (List.singleton_sublist.mpr ?_)
    have hj' : j < t.length := by simpa using hj
    rw [List.getD_eq_getElem?_getD, List.getElem?_eq_getElem hj']
    exact List.getElem_mem hj'
  | a :: t, i + 1, j + 1, d, hij, hj => by
    simp only [List.getD_cons_succ]
    exact List.Sublist.cons a
      (pair_getD_sublist t i j d (by omega) (by simpa using hj))

/-- Helper: indexing a mapped list below its length. -/
theorem getD_map_lt {α β : Type} (f : α → β) (l : List α) (n : ℕ) (d : β)
    (d' : α) (h : n < l.length) : (l.map f).getD n d = f (l.getD n d') := by
  rw [List.getD_eq_getElem?_getD, List.getElem?_map, List.getD_eq_getElem?_getD,
    List.getElem?_eq_getElem h]
  simp

/-- Helper: the ranking comparator is transitive. -/
theorem byFinalValueDesc_trans (a b c : BatchResult) :
    byFinalValueDesc a b → byFinalValueDesc b c → byFinalValueDesc a c := fun hab hbc =>
  decide_eq_true (le_trans (of_decide_eq_true hbc) (of_decide_eq_true hab))

/-- Helper: the ranking comparator is total. -/
theorem byFinalValueDesc_total (a b : BatchResult) :
    byFinalValueDesc a b || byFinalValueDesc b a := by
  rcases le_total b.finalValue a.finalValue with h | h
  · simp [byFinalValueDesc, h]
  · simp [byFinalValueDesc, h]

/-- C7: the ranked list returned by `runBatch` is a permutation of the
per-combination results, it is sorted descending by `finalValue`, and the
sort is stable: two results with equal `finalValue` keep their relative
enumeration order (they occur as a sublist of the ranked output in their
original order). -/
theorem C7_ranking (runOne : Params → Except String BatchResult) (ps : List Params) :
    (runBatch runOne ps).Perm (runBatchResults runOne ps)
    ∧ (runBatch runOne ps).Pairwise (fun a b => b.finalValue ≤ a.finalValue)
    ∧ ∀ i j, i < j → j < (runBatchResults runOne ps).length →
        ((runBatchResults runOne ps).getD j defBatchResult).finalValue
          = ((runBatchResults runOne ps).getD i defBatchResult).finalValue →
        List.Sublist
          [(runBatchResults runOne ps).getD i defBatchResult,
            (runBatchResults runOne ps).getD j defBatchResult]
          (runBatch runOne ps) := by
  refine ⟨List.mergeSort_perm _ _, ?_, ?_⟩
  · exact (List.sorted_mergeSort byFinalValueDesc_trans byFinalValueDesc_total
      (runBatchResults runOne ps)).imp fun h => of_decide_eq_true h
  · intro i j hij hj hfv
    exact List.pair_sublist_mergeSort byFinalValueDesc_trans byFinalValueDesc_total
      (decide_eq_true (le_of_eq hfv))
      (pair_getD_sublist (runBatchResults runOne ps) i j defBatchResult hij hj)

/-- C7 witness: two combinations with equal `finalValue` keep their
enumeration order in the ranked output. -/
theorem C7_ranking_witness :
    List.Sublist
      [(runBatchResults (fun p => Except.ok ⟨p, 0, 5, 0, 0, 0, 0, false, none⟩)
          [[("a", 1)], [("a", 2)]]).getD 0 defBatchResult,
        (runBatchResults (fun p => Except.ok ⟨p, 0, 5, 0, 0, 0, 0, false, none⟩)
          [[("a", 1)], [("a", 2)]]).getD 1 defBatchResult]
      (runBatch (fun p => Except.ok ⟨p, 0, 5, 0, 0, 0, 0, false, none⟩)
        [[("a", 1)], [("a", 2)]]) :=
  (C7_ranking (fun p => Except.ok ⟨p, 0, 5, 0, 0, 0, 0, false, none⟩)
      [[("a", 1)], [("a", 2)]]).2.2 0 1 (by norm_num)
    (by simp [runBatchResults]) (by simp [runBatchResults])

/-- C9: if exactly one combination fails (and the sweep is otherwise the
same), the per-combination result list still has one entry per
`ParameterSet`, the failing one becomes the error result carrying its
`ParameterSet` and the error message, every other entry is identical to the
corresponding entry of the failure-free sweep, and the ranked output still
has exactly N entries. -/
theorem C9_failure_isolation (runOne runOne' : Params → Except String BatchResult)
    (ps : List Params) (j : ℕ) (e : String) (hj : j < ps.length)
    (hfail : runOne (ps.getD j []) = Except.error e)
    (hagree : ∀ i, i < ps.length → i ≠ j →
      runOne (ps.getD i []) = runOne' (ps.getD i [])) :
    (runBatchResults runOne ps).length = ps.length
    ∧ (runBatch runOne ps).length = ps.length
    ∧ (runBatchResults runOne ps).getD j defBatchResult
        = createErrorResult (ps.getD j []) e
    ∧ ∀ i, i < ps.length → i ≠ j →
        (runBatchResults runOne ps).getD i defBatchResult
          = (runBatchResults runOne' ps).getD i defBatchResult := by
  refine ⟨by simp [runBatchResults], ?_, ?_, ?_⟩
  · simp [runBatch, runBatchResults]
  · rw [runBatchResults, getD_map_lt _ ps j defBatchResult [] hj, hfail]
  · intro i hi hne
    rw [runBatchResults, runBatchResults, getD_map_lt _ ps i defBatchResult [] hi,
      getD_map_lt _ ps i defBatchResult [] hi, hagree i hi hne]

/-- C9 witness: a two-combination sweep where the first fails. -/
theorem C9_failure_isolation_witness :
    (runBatchResults
        (fun p => if p = [("a", 1)] then Except.error "boom"
          else Except.ok ⟨p, 0, 5, 0, 0, 0, 0, false, none⟩)
        [[("a", 1)], [("a", 2)]]).length = ([[("a", 1)], [("a", 2)]] : List Params).length
    ∧ (runBatch
        (fun p => if p = [("a", 1)] then Except.error "boom"
          else Except.ok ⟨p, 0, 5, 0, 0, 0, 0, false, none⟩)
        [[("a", 1)], [("a", 2)]]).length = ([[("a", 1)], [("a", 2)]] : List Params).length
    ∧ (runBatchResults
        (fun p => if p = [("a", 1)] then Except.error "boom"
          else Except.ok ⟨p, 0, 5, 0, 0, 0, 0, false, none⟩)
        [[("a", 1)], [("a", 2)]]).getD 0 defBatchResult
        = createErrorResult (([[("a", 1)], [("a", 2)]] : List Params).getD 0 []) "boom"
    ∧ ∀ i, i < ([[("a", 1)], [("a", 2)]] : List Params).length → i ≠ 0 →
        (runBatchResults
          (fun p => if p = [("a", 1)] then Except.error "boom"
            else Except.ok ⟨p, 0, 5, 0, 0, 0, 0, false, none⟩)
          [[("a", 1)], [("a", 2)]]).getD i defBatchResult
          = (runBatchResults (fun p => Except.ok ⟨p, 0, 5, 0, 0, 0, 0, false, none⟩)
            [[("a", 1)], [("a", 2)]]).getD i defBatchResult :=
  C9_failure_isolation
    (fun p => if p = [("a", 1)] then Except.error "boom"
      else Except.ok ⟨p, 0, 5, 0, 0, 0, 0, false, none⟩)
    (fun p => Except.ok ⟨p, 0, 5, 0, 0, 0, 0, false, none⟩)
    [[("a", 1)], [("a", 2)]] 0 "boom" (by norm_num)
    (by norm_num)
    (by
      intro i hi hne
      have hi2 : i < 2 := by simpa using hi
      interval_cases i
      · exact absurd rfl hne
      · norm_num)

/-- Helper: indexing a list mapped over `range` below the bound. -/
theorem getD_map_range {β : Type} (f : ℕ → β) (n i : ℕ) (d : β) (h : i < n) :
    ((List.range n).map f).getD i d = f i := by
  rw [List.getD_eq_getElem?_getD, List.getElem?_map, List.getElem?_range h]
  rfl

/-- Helper: `filterMap` is a `map` when the function is total on the list. -/
theorem filterMap_eq_map_of_some {α β : Type} (f : α → Option β) (g : α → β) :
    ∀ l : List α, (∀ a ∈ l, f a = some (g a)) → l.filterMap f = l.map g
  | [], _ => rfl
  | a :: t, hall => by
    rw [List.filterMap_cons, hall a (List.mem_cons_self _ _), List.map_cons,
      filterMap_eq_map_of_some f g t fun x hx => hall x (List.mem_cons_of_mem _ hx)]

/-- Helper: for inputs at least as long as the period, `wma` is the mapped
range with holes before the warm-up index. -/
theorem wma_eq_map (prices : List ℚ) (p : ℕ) (h : p ≤ prices.length) :
    TechnicalIndicators.wma prices p
      = (List.range prices.length).map fun i =>
          if i + 1 < p then none
          else some (TechnicalIndicators.wmaVal prices i p) := by
  unfold TechnicalIndicators.wma
  rw [if_neg (by omega)]

/-- Helper: `hma`'s differential entry is a hole before the warm-up index of
the longer `wma`. -/
theorem hmaDiffEntry_none (prices : List ℚ) (period i : ℕ)
    (hlen : period ≤ prices.length) (hi : i < prices.length)
    (hwarm : i + 1 < period) :
    TechnicalIndicators.hmaDiffEntry prices (period / 2) period i = none := by
  unfold TechnicalIndicators.hmaDiffEntry
  rw [wma_eq_map prices period hlen, getD_map_range _ _ _ _ hi, if_pos hwarm]
  cases (TechnicalIndicators.wma prices (period / 2)).getD i none <;> rfl

/-- Helper: `hma`'s differential entry is defined from the warm-up index of
the longer `wma` on. -/
theorem hmaDiffEntry_some (prices : List ℚ) (period i : ℕ) (_h2 : 2 ≤ period)
    (hlen : period ≤ prices.length) (hi : i < prices.length)
    (hdef : period ≤ i + 1) :
    TechnicalIndicators.hmaDiffEntry prices (period / 2) period i
      = some (2 * TechnicalIndicators.wmaVal prices i (period / 2)
          - TechnicalIndicators.wmaVal prices i period) := by
  unfold TechnicalIndicators.hmaDiffEntry
  rw [wma_eq_map prices period hlen,
    wma_eq_map prices (period / 2) (le_trans (Nat.div_le_self _ _) hlen),
    getD_map_range _ _ _ _ hi, getD_map_range _ _ _ _ hi,
    if_neg (by omega), if_neg (by omega)]

/-- Helper: the compacted differential sequence feeding `hma`'s final `wma`
is exactly the defined entries, one per index from `period - 1` on. -/
theorem hma_diff_eq (prices : List ℚ) (period : ℕ) (h2 : 2 ≤ period)
    (hlen : period ≤ prices.length) :
    (List.range prices.length).filterMap
        (TechnicalIndicators.hmaDiffEntry prices (period / 2) period)
      = (List.range' (period - 1) (prices.length - period + 1)).map fun i =>
          2 * TechnicalIndicators.wmaVal prices i (period / 2)
            - TechnicalIndicators.wmaVal prices i period := by
  have hsplit : List.range prices.length
      = List.range' 0 (period - 1)
        ++ List.range' (period - 1) (prices.length - period + 1) := by
    have h := List.range'_append_1 0 (period - 1) (prices.length - period + 1)
    rw [Nat.zero_add] at h
    rw [List.range_eq_range', h]
    congr 1
    omega
  rw [hsplit, List.filterMap_append]
  have hnil : (List.range' 0 (period - 1)).filterMap
      (TechnicalIndicators.hmaDiffEntry prices (period / 2) period) = [] := by
    rw [List.filterMap_eq_nil_iff]
    intro a ha
    obtain ⟨k, hk, rfl⟩ := List.mem_range'.mp ha
    exact hmaDiffEntry_none prices period _ hlen (by omega) (by omega)
  rw [hnil, List.nil_append]
  apply filterMap_eq_map_of_some
  intro a ha
  obtain ⟨k, hk, rfl⟩ := List.mem_range'.mp ha
  exact hmaDiffEntry_some prices period _ h2 hlen (by omega) (by omega)

/-- Helper: `hma` output length is `length - period + 1`, not the input
length. -/
theorem hma_length (prices : List ℚ) (period : ℕ) (h2 : 2 ≤ period)
    (hlen : period ≤ prices.length)
    (hsq : Nat.sqrt period ≤ prices.length - period + 1) :
    (TechnicalIndicators.hma prices period).length
      = prices.length - period + 1 := by
  simp only [TechnicalIndicators.hma]
  rw [hma_diff_eq prices period h2 hlen,
    wma_eq_map _ (Nat.sqrt period) (by simpa using hsq)]
  simp

/-- C8 counterexample: `sma` on the one-element input `[1]` with period 2
returns the empty sequence, not a sequence of the input's length. -/
theorem C8_counterexample :
    (TechnicalIndicators.sma [1] 2).length ≠ ([(1 : ℚ)] : List ℚ).length := by
  decide

/-- C8 (amended): for `1 ≤ period`, `sma` returns `[]` on inputs shorter
than the period; on inputs of length at least the period, `sma` and `ema`
return sequences of exactly the input's length with every entry before index
`period - 1` undefined and every later entry populated; `hma` does not
satisfy the length invariant: its output is compacted to length
`length - period + 1` (for `2 ≤ period` and enough data for the final
`wma`), which differs from the input length. -/
theorem C8_indicator_shapes (prices : List ℚ) (period : ℕ) (_h1 : 1 ≤ period) :
    (prices.length < period → TechnicalIndicators.sma prices period = [])
    ∧ (period ≤ prices.length →
        (TechnicalIndicators.sma prices period).length = prices.length
        ∧ (∀ i, i + 1 < period →
            (TechnicalIndicators.sma prices period).getD i (some 0) = none)
        ∧ (∀ i, period ≤ i + 1 → i < prices.length →
            ∃ q, (TechnicalIndicators.sma prices period).getD i none = some q)
        ∧ (TechnicalIndicators.ema prices period).length = prices.length
        ∧ (∀ i, i + 1 < period →
            (TechnicalIndicators.ema prices period).getD i (some 0) = none)
        ∧ (∀ i, period ≤ i + 1 → i < prices.length →
            ∃ q, (TechnicalIndicators.ema prices period).getD i none = some q)
        ∧ (2 ≤ period → Nat.sqrt period ≤ prices.length - period + 1 →
            (TechnicalIndicators.hma prices period).length
                = prices.length - period + 1
            ∧ (TechnicalIndicators.hma prices period).length ≠ prices.length)) := by
  constructor
  · intro hshort
    unfold TechnicalIndicators.sma
    rw [if_pos hshort]
  · intro hlen
    have hmax : max period prices.length = prices.length := Nat.max_eq_right hlen
    refine ⟨?_, ?_, ?_, ?_, ?_, ?_, ?_⟩
    · unfold TechnicalIndicators.sma
      rw [if_neg (by omega)]
      simp
    · intro i hi
      unfold TechnicalIndicators.sma
      rw [if_neg (by omega), getD_map_range _ _ _ _ (by omega), if_pos hi]
    · intro i hge hi
      unfold TechnicalIndicators.sma
      rw [if_neg (by omega), getD_map_range _ _ _ _ hi, if_neg (by omega)]
      exact ⟨_, rfl⟩
    · unfold TechnicalIndicators.ema
      rw [hmax]
      simp
    · intro i hi
      unfold TechnicalIndicators.ema
      rw [hmax, getD_map_range _ _ _ _ (by omega), if_pos hi]
    · intro i hge hi
      unfold TechnicalIndicators.ema
      rw [hmax, getD_map_range _ _ _ _ hi, if_neg (by omega)]
      exact ⟨_, rfl⟩
    · intro h2 hsq
      have h := hma_length prices period h2 hlen hsq
      exact ⟨h, by omega⟩

/-- C8 witness: on the six-element input `[1..6]` with period 4, `sma` and
`ema` keep length 6 while `hma` has length 3. -/
theorem C8_indicator_shapes_witness :
    (TechnicalIndicators.sma [1, 2, 3, 4, 5, 6] 4).length = 6
    ∧ (TechnicalIndicators.ema [1, 2, 3, 4, 5, 6] 4).length = 6
    ∧ (TechnicalIndicators.hma [1, 2, 3, 4, 5, 6] 4).length = 3
    ∧ (TechnicalIndicators.hma [1, 2, 3, 4, 5, 6] 4).length ≠ 6 := by
  have h := (C8_indicator_shapes [1, 2, 3, 4, 5, 6] 4 (by norm_num)).2 (by norm_num)
  have hsq : Nat.sqrt 4 ≤ ([1, 2, 3, 4, 5, 6] : List ℚ).length - 4 + 1 := by
    have := Nat.sqrt_lt_self (by norm_num : 1 < 4)
    simp only [List.length_cons, List.length_nil]
    omega
  have hh := h.2.2.2.2.2.2 (by norm_num) hsq
  refine ⟨by simpa using h.1, by simpa using h.2.2.2.1, by simpa using hh.1,
    by simpa using hh.2⟩

/-- C10 witness: the invariant theorem at a concrete valid configuration. -/
theorem C10_balances_nonneg_witness :
    (0 ≤ (reset ⟨Denom.usdt, 1000, 1/2, 1/100⟩).coinBalance
      ∧ 0 ≤ (reset ⟨Denom.usdt, 1000, 1/2, 1/100⟩).usdtBalance)
    ∧ (0 ≤ (executeTrade ⟨Denom.usdt, 1000, 1/2, 1/100⟩ ⟨3, 7, [], 0⟩ 0 ⟨0, 0, 0, 0, 5, 0⟩ 1).1.coinBalance
        ∧ 0 ≤ (executeTrade ⟨Denom.usdt, 1000, 1/2, 1/100⟩ ⟨3, 7, [], 0⟩ 0 ⟨0, 0, 0, 0, 5, 0⟩ 1).1.usdtBalance)
    ∧ ((1 : ℚ) = -1 → (3 : ℚ) = 0 →
        executeTrade ⟨Denom.usdt, 1000, 1/2, 1/100⟩ ⟨3, 7, [], 0⟩ 0 ⟨0, 0, 0, 0, 5, 0⟩ 1 = (⟨3, 7, [], 0⟩, none))
    ∧ ((1 : ℚ) = 1 → (7 : ℚ) = 0 →
        executeTrade ⟨Denom.usdt, 1000, 1/2, 1/100⟩ ⟨3, 7, [], 0⟩ 0 ⟨0, 0, 0, 0, 5, 0⟩ 1 = (⟨3, 7, [], 0⟩, none)) :=
  C10_balances_nonneg ⟨Denom.usdt, 1000, 1/2, 1/100⟩ ⟨3, 7, [], 0⟩ 0 ⟨0, 0, 0, 0, 5, 0⟩ 1
    (by norm_num) (by norm_num) (by norm_num) (by norm_num) (by norm_num) (by norm_num)
    (by norm_num) (by norm_num)

end Muuned
